import Mathlib

/-!
Verification of the vclock library (a Go vector-clock package) against its
natural-language specification.

The embedding below translates the core operations of the library into Lean:

* a `Clock` (Go `map[string]uint64`) is an association list from identifiers
  to counters; well-formed clocks have no duplicate keys, and `Nodup`
  hypotheses appear on theorems that need that map invariant;
* Go `uint64` counters are natural numbers; the `vc[id] += 1` increment of
  `Tick` wraps modulo 2^64 exactly as in Go, written `(v + 1) % U64`;
* each request handler of the actor goroutine in `clock.go` (the sorted
  comparison state machine, the setter, the tick handler, the merge handler,
  the last-update handler) becomes a pure function on `Clock`;
* `Event.apply` from `structs.go` and `history.apply` from `clock_history.go`
  become `Event.applyE` and `historyApply` (with the `NoOp` identity
  shortener, the library default);
* fallible operations return `Except Err _` with `Err` mirroring the
  package-level error values.
-/

namespace VClock

/-- A vector clock: association list from identifier to counter
(Go `map[string]uint64`, `type Clock map[string]uint64`). -/
abbrev Clock := List (String × Nat)

/-- 2^64, the modulus of the Go `uint64` arithmetic. -/
def U64 : Nat := 18446744073709551616

/-- The package-level error values of `clock.go`. -/
inductive Err where
  | clockIdMustNotBeEmptyString
  | attemptToSetExistingId
  | attemptToTickUnknownId
  | closedVClock
  | clockMustNotBeNil
  | ended
deriving DecidableEq

/-- Go map read `m[id]` (with presence flag): first matching entry. -/
def lookupC : Clock → String → Option Nat
  | [], _ => none
  | (k, v) :: rest, id => if k = id then some v else lookupC rest id

/-- Go `_, ok := m[id]` presence test. -/
def containsKey (m : Clock) (id : String) : Bool :=
  (lookupC m id).isSome

/-- The keys of the clock, in representation order. -/
def keysC (m : Clock) : List String := m.map Prod.fst

/-- Go map write `m[id] = w` for a key already present: replace the entry. -/
def updateC : Clock → String → Nat → Clock
  | [], _, _ => []
  | (k, v) :: rest, id, w =>
    if k = id then (k, w) :: rest else (k, v) :: updateC rest id w

/-- Go map write `m[id] = v` for an absent key: add the entry. -/
def insertC (m : Clock) (id : String) (v : Nat) : Clock :=
  (id, v) :: m

/-- Lexicographic strict order on character lists, the order the Go `<` operator gives
identifier strings when sorting keys. -/
def charListLtb : List Char → List Char → Bool
  | [], [] => false
  | [], _ :: _ => true
  | _ :: _, [] => false
  | a :: as, b :: bs =>
    if a.toNat < b.toNat then true
    else if b.toNat < a.toNat then false
    else charListLtb as bs

/-- Lexicographic strict order on identifier strings (Go `keys[i] < keys[j]`). -/
def strLtb (a b : String) : Bool := charListLtb a.data b.data

/-- Insertion of a string into a sorted list, ascending. -/
def insortStr (s : String) : List String → List String
  | [] => [s]
  | t :: ts => if strLtb t s then t :: insortStr s ts else s :: t :: ts

/-- `sortedKeys` of `clock.go`: the keys of the map in ascending order. -/
def sortedKeys (m : Clock) : List String :=
  (keysC m).foldr insortStr []

/-- The `setter` handler of the actor in `New` (`clock.go`): reject the empty
identifier, reject a present identifier, otherwise install the pair. -/
def setClock (m : Clock) (id : String) (v : Nat) : Except Err Clock :=
  if id = "" then .error .clockIdMustNotBeEmptyString
  else if containsKey m id then .error .attemptToSetExistingId
  else .ok (insertC m id v)

/-- The `reqTick` handler of the actor in `New` (`clock.go`): reject the empty
identifier, reject an absent identifier, otherwise `vc[id] += 1` with the Go
`uint64` wraparound. -/
def tickClock (m : Clock) (id : String) : Except Err Clock :=
  if id = "" then .error .clockIdMustNotBeEmptyString
  else
    match lookupC m id with
    | some v => .ok (updateC m id ((v + 1) % U64))
    | none => .error .attemptToTickUnknownId

/-- `n` consecutive `Tick(id)` calls, stopping at the first error. -/
def tickN : Nat → Clock → String → Except Err Clock
  | 0, m, _ => .ok m
  | n + 1, m, id => (tickClock m id).bind (fun m2 => tickN n m2 id)

/-- One iteration of the `reqMerge` loop in `New` (`clock.go`): for the entry
`(id, v)` of the other clock, raise `vc[id]` to `v` if smaller, or install it
if absent. -/
def mergeInsert (m : Clock) (id : String) (v : Nat) : Clock :=
  match lookupC m id with
  | some cur => if cur < v then updateC m id v else m
  | none => insertC m id v

/-- The `reqMerge` handler body of the actor in `New` (`clock.go`). -/
def mergeClock (m other : Clock) : Clock :=
  other.foldl (fun acc p => mergeInsert acc p.1 p.2) m

/-- The full `reqMerge` handler: it performs the merge loop and then always
answers `v.err <- nil`. -/
def mergeReq (m other : Clock) : Clock × Option Err :=
  (mergeClock m other, none)

/-- The body of the `reqLastUpdate` scan in `New` (`clock.go`): keep the
entry with the first strictly larger counter. -/
def luStep (acc p : String × Nat) : String × Nat :=
  if p.2 > acc.2 then (p.1, p.2) else acc

/-- The `reqLastUpdate` handler of the actor in `New` (`clock.go`): scan the
entries keeping the first strict maximum, starting from `("", 0)`. -/
def lastUpdate (m : Clock) : String × Nat :=
  m.foldl luStep ("", 0)

/-- The largest counter in the clock (0 when empty). -/
def maxVal (m : Clock) : Nat :=
  m.foldr (fun p acc => max p.2 acc) 0

/-! ## The comparison state machine (`reqComp` handler, sorted variant) -/

/-- Condition bit `equal` of `clock.go`. -/
def equal : Nat := 1

/-- Condition bit `ancestor` of `clock.go`. -/
def ancestor : Nat := 2

/-- Condition bit `descendant` of `clock.go`. -/
def descendant : Nat := 4

/-- Condition bit `concurrent` of `clock.go`. -/
def concurrent : Nat := 8

/-- The main loop of the `reqComp` handler over the sorted keys of the other
clock, carrying the mutable `otherIs` candidate.  Mirrors `clock.go` line for
line: a value difference either transitions the candidate, answers
`cond & concurrent != 0`, or answers `false`; a key of `other` missing from
`vc` answers `cond & concurrent != 0` when the candidate is `equal` or when
`len(other) - len(vc) - 1 < 0`, and otherwise leaves the loop (the
unconditional `goto checkContinue`) so that `cond & otherIs != 0` is
answered. -/
def compareLoop (vc other : Clock) (cond : Nat) : List String → Nat → Bool
  | [], otherIs => cond &&& otherIs != 0
  | id :: rest, otherIs =>
    match lookupC vc id with
    | some v =>
      let ov := (lookupC other id).getD 0
      if ov > v then
        if otherIs = equal then
          if cond &&& descendant = 0 then false
          else compareLoop vc other cond rest descendant
        else if otherIs = ancestor then cond &&& concurrent != 0
        else compareLoop vc other cond rest otherIs
      else if ov < v then
        if otherIs = equal then
          if cond &&& ancestor = 0 then false
          else compareLoop vc other cond rest ancestor
        else if otherIs = descendant then cond &&& concurrent != 0
        else compareLoop vc other cond rest otherIs
      else compareLoop vc other cond rest otherIs
    | none =>
      if otherIs = equal then cond &&& concurrent != 0
      else if (other.length : Int) - (vc.length : Int) - 1 < 0 then
        cond &&& concurrent != 0
      else cond &&& otherIs != 0

/-- The `reqComp` handler of the actor in `New` (`clock.go`, sorted variant):
preliminary qualification on cardinalities, then the two key-containment
checks gated on the condition mask, then the main loop. -/
def compare (vc other : Clock) (cond : Nat) : Bool :=
  if vc.length > other.length then
    if cond &&& (ancestor ||| concurrent) = 0 then false
    else compareBody vc other cond ancestor
  else if vc.length < other.length then
    if cond &&& (descendant ||| concurrent) = 0 then false
    else compareBody vc other cond descendant
  else compareBody vc other cond equal
where
  compareBody (vc other : Clock) (cond otherIs : Nat) : Bool :=
    if cond &&& (equal ||| descendant) != 0 &&
        !((sortedKeys vc).all (containsKey other)) then false
    else if cond &&& (equal ||| ancestor) != 0 &&
        !((sortedKeys other).all (containsKey vc)) then false
    else compareLoop vc other cond (sortedKeys other) otherIs

/-- `VClock.Equal`: comparison with the single-condition mask `equal`. -/
def Equal (a b : Clock) : Bool := compare a b equal

/-- `VClock.Concurrent`: comparison with the single-condition mask
`concurrent`. -/
def Concurrent (a b : Clock) : Bool := compare a b concurrent

/-- `VClock.DescendsFrom`: comparison with the single-condition mask
`descendant` (receiver as self). -/
def DescendsFrom (a b : Clock) : Bool := compare a b descendant

/-- `VClock.AncestorOf`: comparison with the single-condition mask
`ancestor`. -/
def AncestorOf (a b : Clock) : Bool := compare a b ancestor

/-! ## Events and history (`structs.go`, `clock_history.go`) -/

/-- `Event` of `structs.go`: a tagged update with exactly one payload active,
modelled as a sum type as the spec recommends. -/
inductive Event where
  | set : String → Nat → Event
  | tick : String → Event
  | merge : Clock → Event

/-- `Event.apply` of `structs.go` with the identity transformation of
identifiers (the `NoOp` shortener, the library default).  `Set` rejects the
empty or present identifier; `Tick` rejects the absent identifier and
increments with Go `uint64` wraparound; `Merge` takes the pointwise maximum
and never fails. -/
def Event.applyE (m : Clock) : Event → Except Err Clock
  | .set id v =>
    if id = "" then .error .clockIdMustNotBeEmptyString
    else if containsKey m id then .error .attemptToSetExistingId
    else .ok (insertC m id v)
  | .tick id =>
    match lookupC m id with
    | some v => .ok (updateC m id ((v + 1) % U64))
    | none => .error .attemptToTickUnknownId
  | .merge other => .ok (mergeClock m other)

/-- `HistoryItem` of `structs.go`: sequence id, the event that produced the
state (`none` for the initial state), and the state after the event. -/
structure HistoryItem where
  historyId : Nat
  change : Option Event
  clock : Clock

/-- `history` of `clock_history.go`: the id of the latest item and the
append-only list of items. -/
structure History where
  lastId : Nat
  items : List HistoryItem

/-- `history.latest` of `clock_history.go`: the clock of the item at index
`lastId`. -/
def latest (h : History) : Clock :=
  (h.items.getD h.lastId ⟨0, none, []⟩).clock

/-- `history.apply` of `clock_history.go`: copy the latest snapshot, apply
the event to the copy; on error report it and leave the history untouched;
on success append a `HistoryItem` carrying `lastId + 1`, the event, and the
new state. -/
def historyApply (h : History) (e : Event) : History × Option Err :=
  match e.applyE (latest h) with
  | .error err => (h, some err)
  | .ok vc =>
    ({ lastId := h.lastId + 1,
       items := h.items ++ [⟨h.lastId + 1, some e, vc⟩] }, none)

/-! ## Construction and serialisation (`New`, `Bytes`, `FromBytes`) -/

/-- The init loop of `New` (`clock.go`): `Set` each initial pair in turn; the
first failure makes `New` return `nil, v.Close()`, and `Close` on the live
actor yields the `errEnded` value. -/
def newLoop : Clock → Clock → Except Err Clock
  | [], acc => .ok acc
  | (k, v) :: rest, acc =>
    match setClock acc k v with
    | .error _ => .error .ended
    | .ok acc2 => newLoop rest acc2

/-- `New` (`clock.go`): build the clock by `Set`-ing every initial pair into
an empty clock. -/
def newVClock (init : Clock) : Except Err Clock :=
  newLoop init []

/-- Modelled from the spec: the `encoding/gob` codec used by `Bytes` and
`FromBytes` is not part of this repository; the spec requires only a stable,
implementation-defined encoding of the clock map that round-trips.  The
encoded blob is therefore modelled as an opaque wrapper of the map content. -/
structure GobBytes where
  data : Clock

/-- `Bytes` (`clock.go`): take the snapshot of the clock and gob-encode it. -/
def bytesVC (m : Clock) : GobBytes :=
  ⟨m⟩

/-- `FromBytes` (`clock.go`): gob-decode the map and construct a clock from
it with `New`. -/
def fromBytes (b : GobBytes) : Except Err Clock :=
  newVClock b.data

/-! ## Lifecycle (context-cancel variant of `clock.go`) -/

/-- The caller-facing handle of the context-cancel variant: the clock state
together with the cancellation status of its scope. -/
structure VClockHandle where
  clock : Clock
  closed : Bool

/-- `Close` of the context-cancel variant (`clock.go`): `vc.cancel()` then
`return nil`.  Cancelling an already-cancelled context is a no-op, so the
model simply marks the scope cancelled; the returned error is always absent. -/
def closeVC (v : VClockHandle) : VClockHandle × Option Err :=
  ({ v with closed := true }, none)

/-! ## Map lemmas -/

theorem lookupC_eq_none_iff (m : Clock) (k : String) :
    lookupC m k = none ↔ k ∉ keysC m := by
  induction m with
  | nil => simp [lookupC, keysC]
  | cons p rest ih =>
    obtain ⟨a, b⟩ := p
    by_cases h : a = k
    · subst h
      simp [lookupC, keysC]
    · simp [lookupC, keysC, h, ih, Ne.symm h]

theorem lookupC_of_mem_nodup (m : Clock) (hnd : (keysC m).Nodup)
    (k : String) (v : Nat) (hmem : (k, v) ∈ m) : lookupC m k = some v := by
  induction m with
  | nil => cases hmem
  | cons p rest ih =>
    obtain ⟨a, b⟩ := p
    have hcons : (a :: keysC rest).Nodup := hnd
    have ha : a ∉ keysC rest := (List.nodup_cons.mp hcons).1
    have hnd2 : (keysC rest).Nodup := (List.nodup_cons.mp hcons).2
    rcases List.mem_cons.mp hmem with heq | hmemr
    · cases heq
      simp [lookupC]
    · have hk : a ≠ k := by
        intro h
        subst h
        exact ha (List.mem_map_of_mem Prod.fst hmemr)
      simp [lookupC, hk]
      exact ih hnd2 hmemr

theorem lookupC_updateC_self (m : Clock) (id : String) (v w : Nat)
    (h : lookupC m id = some v) :
    lookupC (updateC m id w) id = some w := by
  induction m with
  | nil => simp [lookupC] at h
  | cons p rest ih =>
    obtain ⟨a, b⟩ := p
    by_cases ha : a = id
    · subst ha
      simp [updateC, lookupC]
    · simp [lookupC, ha] at h
      simp [updateC, lookupC, ha, ih h]

theorem lookupC_updateC_ne (m : Clock) (id : String) (w : Nat)
    (k : String) (hk : k ≠ id) :
    lookupC (updateC m id w) k = lookupC m k := by
  induction m with
  | nil => simp [updateC]
  | cons p rest ih =>
    obtain ⟨a, b⟩ := p
    by_cases ha : a = id
    · subst ha
      simp [updateC, lookupC, Ne.symm hk]
    · simp [updateC, lookupC, ha, ih]

theorem lookupC_mergeInsert (m : Clock) (k0 : String) (v0 : Nat) (k : String) :
    lookupC (mergeInsert m k0 v0) k =
      if k = k0 then some ((lookupC m k0).elim v0 (fun c => max c v0))
      else lookupC m k := by
  unfold mergeInsert
  cases hm : lookupC m k0 with
  | none =>
    by_cases hk : k = k0
    · subst hk
      simp [insertC, lookupC, hm]
    · simp [insertC, lookupC, hk, Ne.symm hk]
  | some cur =>
    by_cases hlt : cur < v0
    · by_cases hk : k = k0
      · subst hk
        simp [hlt, lookupC_updateC_self m k cur v0 hm, Nat.max_eq_right (Nat.le_of_lt hlt)]
      · simp [hlt, lookupC_updateC_ne m k0 v0 k hk, hk]
    · by_cases hk : k = k0
      · subst hk
        simp [hlt, hm, Nat.max_eq_left (Nat.le_of_not_lt hlt)]
      · simp [hlt, hk]

/-- The pointwise combination a merge performs on one key: the maximum of
the two counters when both are present, the present one otherwise. -/
def mergedVal : Option Nat → Option Nat → Option Nat
  | some vm, some vo => some (max vm vo)
  | some vm, none => some vm
  | none, some vo => some vo
  | none, none => none

theorem lookupC_mergeClock (o : Clock) : ∀ m : Clock, (keysC o).Nodup →
    ∀ k, lookupC (mergeClock m o) k = mergedVal (lookupC m k) (lookupC o k) := by
  induction o with
  | nil =>
    intro m _ k
    cases h : lookupC m k <;> simp [mergeClock, mergedVal, lookupC, h]
  | cons p rest ih =>
    intro m hnd k
    obtain ⟨k0, v0⟩ := p
    have hcons : (k0 :: keysC rest).Nodup := hnd
    have hk0 : k0 ∉ keysC rest := (List.nodup_cons.mp hcons).1
    have hnd2 : (keysC rest).Nodup := (List.nodup_cons.mp hcons).2
    have hrest : lookupC rest k0 = none := (lookupC_eq_none_iff rest k0).mpr hk0
    have hstep : mergeClock m ((k0, v0) :: rest) =
        mergeClock (mergeInsert m k0 v0) rest := rfl
    rw [hstep, ih (mergeInsert m k0 v0) hnd2 k, lookupC_mergeInsert]
    by_cases hk : k = k0
    · subst hk
      rw [hrest]
      have hhead : lookupC ((k, v0) :: rest) k = some v0 := by simp [lookupC]
      rw [hhead]
      cases hm : lookupC m k <;> simp [mergedVal]
    · have hhead : lookupC ((k0, v0) :: rest) k = lookupC rest k := by
        simp [lookupC, Ne.symm hk]
      rw [hhead]
      simp [hk]

/-- Claim C4: applying a Merge never returns an error, and the result is the
pointwise maximum: every key of `other` ends at `max` of the two counters
(just the counter of `other` when absent from `m`), keys of `m` outside `other`
are unchanged, and no counter of `m` decreases. -/
theorem merge_pointwise_max (m o : Clock) (hnd : (keysC o).Nodup) :
    (mergeReq m o).2 = none ∧
    (∀ k vo, lookupC o k = some vo →
      lookupC (mergeClock m o) k =
        some ((lookupC m k).elim vo (fun vm => max vm vo))) ∧
    (∀ k, lookupC o k = none → lookupC (mergeClock m o) k = lookupC m k) ∧
    (∀ k vm, lookupC m k = some vm →
      ∃ w, lookupC (mergeClock m o) k = some w ∧ vm ≤ w) := by
  refine ⟨rfl, ?_, ?_, ?_⟩
  · intro k vo h
    rw [lookupC_mergeClock o m hnd k, h]
    cases hm : lookupC m k <;> simp [mergedVal]
  · intro k h
    rw [lookupC_mergeClock o m hnd k, h]
    cases hm : lookupC m k <;> simp [mergedVal]
  · intro k vm h
    rw [lookupC_mergeClock o m hnd k, h]
    cases ho : lookupC o k with
    | none => exact ⟨vm, by simp [mergedVal], Nat.le_refl vm⟩
    | some vo => exact ⟨max vm vo, by simp [mergedVal], Nat.le_max_left vm vo⟩

/-- Claim C4 witness: a concrete merge, its pointwise-maximum value at a
shared key, and its success flag. -/
theorem merge_pointwise_max_witness :
    (mergeReq [("a", 5), ("b", 1)] [("b", 3), ("c", 7)]).2 = none ∧
    lookupC (mergeClock [("a", 5), ("b", 1)] [("b", 3), ("c", 7)]) "b" = some 3 := by
  have h := merge_pointwise_max [("a", 5), ("b", 1)] [("b", 3), ("c", 7)] (by decide)
  refine ⟨h.1, ?_⟩
  have h2 := h.2.1 "b" 3 (by decide)
  rw [h2]
  decide

/-- Claim C5: merging at the snapshot level is idempotent (merging the same
clock twice gives the snapshot of merging once) and commutative when the two
clocks start from equal snapshots. -/
theorem merge_idem_comm (A B : Clock) (hA : (keysC A).Nodup)
    (hB : (keysC B).Nodup) :
    (∀ k, lookupC (mergeClock (mergeClock A B) B) k =
      lookupC (mergeClock A B) k) ∧
    ((∀ k, lookupC A k = lookupC B k) →
      ∀ k, lookupC (mergeClock A B) k = lookupC (mergeClock B A) k) := by
  constructor
  · intro k
    rw [lookupC_mergeClock B (mergeClock A B) hB k, lookupC_mergeClock B A hB k]
    cases ha : lookupC A k <;> cases hb : lookupC B k <;>
      simp [mergedVal, Nat.max_assoc, Nat.max_self]
  · intro hAB k
    rw [lookupC_mergeClock B A hB k, lookupC_mergeClock A B hA k, hAB k]

/-- Claim C5 witness: the idempotence consequence at a concrete pair of
clocks and a concrete key. -/
theorem merge_idem_comm_witness :
    lookupC (mergeClock (mergeClock [("a", 1)] [("a", 2), ("b", 3)])
        [("a", 2), ("b", 3)]) "a" =
      lookupC (mergeClock [("a", 1)] [("a", 2), ("b", 3)]) "a" :=
  (merge_idem_comm [("a", 1)] [("a", 2), ("b", 3)] (by decide) (by decide)).1 "a"

/-! ## Tick -/

theorem tickN_ok (id : String) (hid : id ≠ "") :
    ∀ (n : Nat) (m : Clock) (v : Nat), v < U64 → lookupC m id = some v →
      ∃ m2, tickN n m id = .ok m2 ∧ lookupC m2 id = some ((v + n) % U64) := by
  intro n
  induction n with
  | zero =>
    intro m v hv h
    refine ⟨m, rfl, ?_⟩
    rw [h]
    congr 1
    simp only [U64] at hv ⊢
    omega
  | succ n ih =>
    intro m v hv h
    have hstep : tickClock m id = .ok (updateC m id ((v + 1) % U64)) := by
      simp [tickClock, hid, h]
    have hlook : lookupC (updateC m id ((v + 1) % U64)) id =
        some ((v + 1) % U64) := lookupC_updateC_self m id v _ h
    have hlt : (v + 1) % U64 < U64 := Nat.mod_lt _ (by norm_num [U64])
    obtain ⟨m2, hrun, hm2⟩ := ih (updateC m id ((v + 1) % U64)) ((v + 1) % U64) hlt hlook
    refine ⟨m2, ?_, ?_⟩
    · show (tickClock m id).bind (fun m3 => tickN n m3 id) = .ok m2
      rw [hstep]
      exact hrun
    · rw [hm2]
      congr 1
      simp only [U64]
      omega

/-- Claim C2 (amended): a `Tick` of a present identifier succeeds and sets
the counter to `(v + 1) % 2^64` — Go `uint64` addition wraps, so the counter
is `v + 1` except at the maximum value — `n` consecutive ticks starting from
`v` end at `(v + n) % 2^64`, and a `Tick` of an absent identifier fails with
the unknown-identifier error.  (Identifiers are non-empty strings by the
data model of the spec; counters are below 2^64 by `uint64` typing.) -/
theorem tick_increments_mod (m : Clock) (id : String) (v n : Nat)
    (hid : id ≠ "") (hv : v < U64) (hpres : lookupC m id = some v) :
    (∃ m2, tickClock m id = .ok m2 ∧ lookupC m2 id = some ((v + 1) % U64)) ∧
    (∃ m2, tickN n m id = .ok m2 ∧ lookupC m2 id = some ((v + n) % U64)) ∧
    (∀ m0 : Clock, lookupC m0 id = none →
      tickClock m0 id = .error .attemptToTickUnknownId) := by
  refine ⟨?_, tickN_ok id hid n m v hv hpres, ?_⟩
  · exact ⟨_, by simp [tickClock, hid, hpres], lookupC_updateC_self m id v _ hpres⟩
  · intro m0 h0
    simp [tickClock, hid, h0]

/-- Claim C2 witness: three consecutive ticks of a present identifier at a
concrete clock. -/
theorem tick_increments_mod_witness :
    (("a" : String) ≠ "" ∧ (1 : Nat) < U64 ∧
      lookupC [("a", 1)] "a" = some 1) ∧
    (∃ m2, tickN 3 [("a", 1)] "a" = .ok m2 ∧
      lookupC m2 "a" = some ((1 + 3) % U64)) := by
  refine ⟨⟨by decide, by norm_num [U64], by decide⟩, ?_⟩
  exact (tick_increments_mod [("a", 1)] "a" 1 3 (by decide)
    (by norm_num [U64]) (by decide)).2.1

/-- Claim C2 counterexample: at the maximum `uint64` value the counter wraps
to 0 rather than reaching `v + 1`, so the stated "exactly v+1 ... including
the maximum" fails. -/
theorem tick_overflow_cex :
    tickClock [("a", 18446744073709551615)] "a" = .ok [("a", 0)] ∧
    (18446744073709551615 + 1 : Nat) ≠ 0 := by
  constructor
  · rfl
  · decide

/-! ## History error handling, construction and round-trip -/

/-- Claim C3: when applying an event to the history fails, the clock state is
unchanged — the latest snapshot is the same and no history item is appended. -/
theorem historyApply_error_unchanged (h : History) (e : Event) (err : Err)
    (hfail : (historyApply h e).2 = some err) :
    latest (historyApply h e).1 = latest h ∧
    (historyApply h e).1.items.length = h.items.length := by
  unfold historyApply at hfail ⊢
  cases happ : Event.applyE (latest h) e with
  | error e2 =>
    exact ⟨rfl, rfl⟩
  | ok vc =>
    rw [happ] at hfail
    simp at hfail

/-- Claim C3 witness: a tick of an unknown identifier fails and leaves a
concrete one-item history unchanged. -/
theorem historyApply_error_unchanged_witness :
    (historyApply ⟨0, [⟨0, none, [("a", 1)]⟩]⟩ (.tick "z")).2 =
      some .attemptToTickUnknownId ∧
    (latest (historyApply ⟨0, [⟨0, none, [("a", 1)]⟩]⟩ (.tick "z")).1 =
      latest ⟨0, [⟨0, none, [("a", 1)]⟩]⟩ ∧
     (historyApply ⟨0, [⟨0, none, [("a", 1)]⟩]⟩ (.tick "z")).1.items.length =
      ([⟨0, none, [("a", 1)]⟩] : List HistoryItem).length) :=
  ⟨rfl, historyApply_error_unchanged ⟨0, [⟨0, none, [("a", 1)]⟩]⟩ (.tick "z")
    .attemptToTickUnknownId rfl⟩

theorem newLoop_ok (init : Clock) : ∀ acc : Clock,
    (∀ p ∈ init, p.1 ≠ "") → (keysC init).Nodup →
    (∀ p ∈ init, containsKey acc p.1 = false) →
    ∃ m2, newLoop init acc = .ok m2 ∧
      ∀ k, lookupC m2 k = (lookupC init k).elim (lookupC acc k) some := by
  induction init with
  | nil =>
    intro acc _ _ _
    exact ⟨acc, rfl, fun k => by simp [lookupC]⟩
  | cons p rest ih =>
    intro acc hne hnd hdisj
    obtain ⟨k0, v0⟩ := p
    have hk0ne : k0 ≠ "" := hne (k0, v0) (List.mem_cons_self _ _)
    have hk0abs : containsKey acc k0 = false := hdisj (k0, v0) (List.mem_cons_self _ _)
    have hset : setClock acc k0 v0 = .ok (insertC acc k0 v0) := by
      simp [setClock, hk0ne, hk0abs]
    have hcons : (k0 :: keysC rest).Nodup := hnd
    have hk0rest : k0 ∉ keysC rest := (List.nodup_cons.mp hcons).1
    have hnd2 : (keysC rest).Nodup := (List.nodup_cons.mp hcons).2
    have hdisj2 : ∀ q ∈ rest, containsKey (insertC acc k0 v0) q.1 = false := by
      intro q hq
      have h1 : containsKey acc q.1 = false := hdisj q (List.mem_cons_of_mem _ hq)
      have h2 : q.1 ≠ k0 := by
        intro heq
        exact hk0rest (heq ▸ List.mem_map_of_mem Prod.fst hq)
      simp only [containsKey, insertC, lookupC, if_neg (Ne.symm h2)]
      simpa [containsKey] using h1
    obtain ⟨m2, hrun, hm2⟩ :=
      ih (insertC acc k0 v0) (fun q hq => hne q (List.mem_cons_of_mem _ hq)) hnd2 hdisj2
    refine ⟨m2, ?_, ?_⟩
    · show (match setClock acc k0 v0 with
        | .error _ => Except.error Err.ended
        | .ok acc2 => newLoop rest acc2) = .ok m2
      rw [hset]
      exact hrun
    · intro k
      rw [hm2 k]
      by_cases hk : k0 = k
      · subst hk
        have hnone : lookupC rest k0 = none := (lookupC_eq_none_iff rest k0).mpr hk0rest
        simp [lookupC, hnone, insertC]
      · simp [lookupC, hk, insertC]

/-- Claim C6: serialising and deserialising round-trips the snapshot — for a
well-formed clock (non-empty identifiers, no duplicate keys), `FromBytes`
applied to `Bytes` succeeds and the resulting clock agrees with the original
at every key. -/
theorem bytes_roundtrip (m : Clock) (hne : ∀ p ∈ m, p.1 ≠ "")
    (hnd : (keysC m).Nodup) :
    ∃ m2, fromBytes (bytesVC m) = .ok m2 ∧
      ∀ k, lookupC m2 k = lookupC m k := by
  obtain ⟨m2, hrun, hm2⟩ := newLoop_ok m [] hne hnd (fun p _ => rfl)
  refine ⟨m2, hrun, fun k => ?_⟩
  rw [hm2 k]
  cases h : lookupC m k <;> simp [lookupC]

/-- Claim C6 witness: round-trip of a concrete two-key clock. -/
theorem bytes_roundtrip_witness :
    (∀ p ∈ ([("a", 1), ("b", 14)] : Clock), p.1 ≠ "") ∧
    (keysC [("a", 1), ("b", 14)]).Nodup ∧
    (∃ m2, fromBytes (bytesVC [("a", 1), ("b", 14)]) = .ok m2 ∧
      ∀ k, lookupC m2 k = lookupC [("a", 1), ("b", 14)] k) :=
  ⟨by decide, by decide, bytes_roundtrip [("a", 1), ("b", 14)] (by decide) (by decide)⟩

theorem newLoop_empty_key (init : Clock) : ∀ acc : Clock, "" ∈ keysC init →
    newLoop init acc = .error .ended := by
  induction init with
  | nil =>
    intro acc h
    simp [keysC] at h
  | cons p rest ih =>
    intro acc h
    obtain ⟨k0, v0⟩ := p
    by_cases hk : k0 = ""
    · subst hk
      simp [newLoop, setClock]
    · have h2 : "" ∈ keysC rest := by
        rcases List.mem_cons.mp h with h1 | h1
        · exact absurd h1.symm hk
        · exact h1
      cases hs : setClock acc k0 v0 with
      | error e2 => simp [newLoop, hs]
      | ok acc2 => simp [newLoop, hs, ih acc2 h2]

/-- Claim C10: `New` on an initial map containing the empty string as a key
fails — no clock is produced and the error is the non-nil result of closing
the partially built clock (`errEnded`). -/
theorem new_empty_key_fails (init : Clock) (h : "" ∈ keysC init) :
    newVClock init = .error .ended :=
  newLoop_empty_key init [] h

/-- Claim C10 witness: a concrete initial map with an empty-string key. -/
theorem new_empty_key_fails_witness :
    "" ∈ keysC [("", 5)] ∧ newVClock [("", 5)] = .error .ended :=
  ⟨by decide, new_empty_key_fails [("", 5)] (by decide)⟩

/-- Claim C9: `Close` of the context-cancel variant always returns success,
so a repeated close after the clock is already closed is not an error. -/
theorem close_idempotent (v : VClockHandle) :
    (closeVC v).2 = none ∧ (closeVC (closeVC v).1).2 = none ∧
    ((closeVC v).1).closed = true :=
  ⟨rfl, rfl, rfl⟩

/-! ## LastUpdate -/

theorem mem_le_maxVal (m : Clock) : ∀ p ∈ m, p.2 ≤ maxVal m := by
  induction m with
  | nil => intro p hp; cases hp
  | cons q rest ih =>
    intro p hp
    rcases List.mem_cons.mp hp with h | h
    · subst h
      exact Nat.le_max_left _ _
    · exact Nat.le_trans (ih p h) (Nat.le_max_right _ _)

theorem luFold_snd (m : Clock) : ∀ a b, (List.foldl luStep (a, b) m).2 = max b (maxVal m) := by
  induction m with
  | nil =>
    intro a b
    simp [maxVal]
  | cons p rest ih =>
    intro a b
    obtain ⟨k, v⟩ := p
    have hmax : maxVal ((k, v) :: rest) = max v (maxVal rest) := rfl
    by_cases hv : v > b
    · have hstep : luStep (a, b) (k, v) = (k, v) := by simp [luStep, hv]
      calc (List.foldl luStep (a, b) ((k, v) :: rest)).2
          = (List.foldl luStep (k, v) rest).2 := by rw [List.foldl_cons, hstep]
        _ = max v (maxVal rest) := ih k v
        _ = max b (max v (maxVal rest)) := by
            refine (Nat.max_eq_right ?_).symm
            exact Nat.le_trans (Nat.le_of_lt hv) (Nat.le_max_left _ _)
        _ = max b (maxVal ((k, v) :: rest)) := by rw [hmax]
    · have hstep : luStep (a, b) (k, v) = (a, b) := by simp [luStep, hv]
      calc (List.foldl luStep (a, b) ((k, v) :: rest)).2
          = (List.foldl luStep (a, b) rest).2 := by rw [List.foldl_cons, hstep]
        _ = max b (maxVal rest) := ih a b
        _ = max (max b v) (maxVal rest) := by
            rw [Nat.max_eq_left (Nat.le_of_not_lt hv)]
        _ = max b (max v (maxVal rest)) := Nat.max_assoc b v (maxVal rest)
        _ = max b (maxVal ((k, v) :: rest)) := by rw [hmax]

theorem luFold_result (m : Clock) : ∀ a b,
    List.foldl luStep (a, b) m = (a, b) ∨ List.foldl luStep (a, b) m ∈ m := by
  induction m with
  | nil =>
    intro a b
    exact Or.inl rfl
  | cons p rest ih =>
    intro a b
    obtain ⟨k, v⟩ := p
    by_cases hv : v > b
    · have hstep : luStep (a, b) (k, v) = (k, v) := by simp [luStep, hv]
      rw [List.foldl_cons, hstep]
      rcases ih k v with h | h
      · refine Or.inr ?_
        rw [h]
        exact List.mem_cons_self _ _
      · exact Or.inr (List.mem_cons_of_mem _ h)
    · have hstep : luStep (a, b) (k, v) = (a, b) := by simp [luStep, hv]
      rw [List.foldl_cons, hstep]
      rcases ih a b with h | h
      · exact Or.inl h
      · exact Or.inr (List.mem_cons_of_mem _ h)

theorem luFold_stay (m : Clock) : ∀ a b, (∀ p ∈ m, p.2 ≤ b) →
    List.foldl luStep (a, b) m = (a, b) := by
  induction m with
  | nil =>
    intro a b _
    rfl
  | cons p rest ih =>
    intro a b hle
    obtain ⟨k, v⟩ := p
    have hv : ¬ v > b := Nat.not_lt.mpr (hle (k, v) (List.mem_cons_self _ _))
    have hstep : luStep (a, b) (k, v) = (a, b) := by simp [luStep, hv]
    rw [List.foldl_cons, hstep]
    exact ih a b (fun q hq => hle q (List.mem_cons_of_mem _ hq))

/-- Claim C8 (amended): `LastUpdate` returns the maximum counter of the
snapshot as its value (0 on an empty clock); when that maximum is positive
the returned identifier is a key of the snapshot holding the maximum; when
every counter is zero — in particular on an empty clock — it returns
`("", 0)`. -/
theorem lastUpdate_max (m : Clock) (hnd : (keysC m).Nodup) :
    (lastUpdate m).2 = maxVal m ∧
    (0 < maxVal m → lookupC m (lastUpdate m).1 = some (maxVal m)) ∧
    (maxVal m = 0 → lastUpdate m = ("", 0)) := by
  have hsnd : (lastUpdate m).2 = maxVal m := by
    have h := luFold_snd m "" 0
    simpa [lastUpdate] using h
  refine ⟨hsnd, ?_, ?_⟩
  · intro hpos
    rcases luFold_result m "" 0 with h | h
    · exfalso
      have h0 : (lastUpdate m).2 = 0 := by
        rw [show lastUpdate m = ("", 0) from h]
      rw [hsnd] at h0
      omega
    · have hmem : ((lastUpdate m).1, (lastUpdate m).2) ∈ m := by
        simpa using h
      have hl := lookupC_of_mem_nodup m hnd _ _ hmem
      rw [hl, hsnd]
  · intro h0
    apply luFold_stay
    intro p hp
    have := mem_le_maxVal m p hp
    omega

/-- Claim C8 witness: a concrete clock where the maximum is positive and the
returned identifier holds it. -/
theorem lastUpdate_max_witness :
    (keysC [("a", 1), ("b", 14)]).Nodup ∧
    lookupC [("a", 1), ("b", 14)] (lastUpdate [("a", 1), ("b", 14)]).1 =
      some (maxVal [("a", 1), ("b", 14)]) :=
  ⟨by decide, (lastUpdate_max [("a", 1), ("b", 14)] (by decide)).2.1 (by decide)⟩

/-- Claim C8 counterexample: on the non-empty all-zero clock the handler
returns `("", 0)`, and the returned identifier is not a key of the snapshot,
contradicting the stated "on every non-empty clock the returned identifier
is a key". -/
theorem lastUpdate_zero_cex :
    ([("x", 0)] : Clock) ≠ [] ∧
    lastUpdate [("x", 0)] = ("", 0) ∧
    (lastUpdate [("x", 0)]).1 ∉ keysC [("x", 0)] := by
  refine ⟨by decide, rfl, by decide⟩

/-! ## Comparison claims -/

/-- Claim C7: the concrete comparison matrix — for `A = {a:1, b:14}` against
`B = {a:2, b:14}` only `DescendsFrom` is true, and against `B = {a:1, d:12}`
only `Concurrent` is true. -/
theorem comparison_matrix :
    DescendsFrom [("a", 1), ("b", 14)] [("a", 2), ("b", 14)] = true ∧
    AncestorOf [("a", 1), ("b", 14)] [("a", 2), ("b", 14)] = false ∧
    Equal [("a", 1), ("b", 14)] [("a", 2), ("b", 14)] = false ∧
    Concurrent [("a", 1), ("b", 14)] [("a", 2), ("b", 14)] = false ∧
    Equal [("a", 1), ("b", 14)] [("a", 1), ("d", 12)] = false ∧
    AncestorOf [("a", 1), ("b", 14)] [("a", 1), ("d", 12)] = false ∧
    DescendsFrom [("a", 1), ("b", 14)] [("a", 1), ("d", 12)] = false ∧
    Concurrent [("a", 1), ("b", 14)] [("a", 1), ("d", 12)] = true := by
  decide

/-- Claim C1: evaluation of the comparison state machine at the failing
input — for the disjoint clocks `{a:1}` and `{b:1, c:1}` of different
cardinality, all four single-condition comparisons return false, so no
causal relation holds, refuting "exactly one of the four returns true" and
in particular "Concurrent must be the one that returns true". -/
theorem compare_partition_failure :
    Equal [("a", 1)] [("b", 1), ("c", 1)] = false ∧
    AncestorOf [("a", 1)] [("b", 1), ("c", 1)] = false ∧
    DescendsFrom [("a", 1)] [("b", 1), ("c", 1)] = false ∧
    Concurrent [("a", 1)] [("b", 1), ("c", 1)] = false := by
  decide

end VClock
